import Mathlib

/-
Verification development for the data-summarizer crate (src/lib.rs).

The crate is a pyo3 extension module with two stages:
  * a normalizer (py_to_value / pydict_to_value) converting a Python object
    into a serde_json::Value, and
  * a recursive summarizer (summarize_value) computing five aggregate
    statistics over that Value tree, exposed through summarize_large_json.

Below, each Rust function is embedded as a Lean function with the same name,
with mutable reference parameters turned into explicit state passing.
-/

/-- serde_json numbers: an i64 integer or a finite f64. Only finiteness of
floats matters to any claim, so a finite double is modelled by an opaque
integer code. -/
inductive JNum where
  | int (n : Int)
  | float (code : Int)
deriving DecidableEq, Repr

/-- serde_json::Value. Object entries are kept as a list of key/value pairs
(the map contents); Array is a list of values. -/
inductive Value where
  | object (entries : List (String × Value))
  | array (elems : List Value)
  | str (s : String)
  | num (n : JNum)
  | bool (b : Bool)
  | null

/-- The three accumulator parameters of summarize_value that Rust passes by
mutable reference: type_counts (a HashMap modelled by an association list,
entry order being a model artifact), nested_dicts and
nested_lists_with_dicts. -/
structure SumState where
  typeCounts : List (String × Nat)
  nestedDicts : Nat
  nestedListsWithDicts : Nat
deriving DecidableEq, Repr

/-- HashMap::entry(k).or_insert(0) += 1 on the association-list model: bump
the value at k when present, otherwise add the entry with value 1. -/
def entryIncr : List (String × Nat) → String → List (String × Nat)
  | [], k => [(k, 1)]
  | (k0, v) :: rest, k =>
      if k0 = k then (k0, v + 1) :: rest else (k0, v) :: entryIncr rest k

/-- HashSet::insert on the list model of a HashSet<String> (a duplicate-free
list; the list order is a model artifact, abstracted away by the iteration
order parameter of summarize_large_json): add the element when absent. -/
def hsInsert (l : List String) (k : String) : List String :=
  if k ∈ l then l else l ++ [k]

/-- keys.extend(sub_keys): insert every element of the second set. -/
def hsExtend (l l2 : List String) : List String := l2.foldl hsInsert l

/-- The `if let Value::Object(_) = val` test of the Array branch of
summarize_value. -/
def isObjectB : Value → Bool
  | .object _ => true
  | _ => false

/-- The per-element bump of nested_lists_with_dicts in the Array branch of
summarize_value: incremented when this element is an Object. -/
def stBump (st : SumState) (v : Value) : SumState :=
  if isObjectB v then
    { st with nestedListsWithDicts := st.nestedListsWithDicts + 1 }
  else st

mutual

/-- summarize_value from src/lib.rs (lines 39-102): recursively summarize a
Value, threading the three mutable accumulators as a SumState and returning
the (size, keys) pair.  The local `size` and `keys` of the source become the
running accumulators of the two loop helpers below.  The depth parameter is
carried exactly as in the source (incremented on recursion, otherwise
unused). -/
def summarizeValue (v : Value) (depth : Nat) (st : SumState) :
    SumState × Nat × List String :=
  match v with
  | .object map =>
      let st1 : SumState :=
        { st with typeCounts := entryIncr st.typeCounts "Object",
                  nestedDicts := st.nestedDicts + 1 }
      summarizeEntries map depth st1 map.length []
  | .array arr =>
      let st1 : SumState := { st with typeCounts := entryIncr st.typeCounts "Array" }
      summarizeElems arr depth st1 0 []
  | .str _ => ({ st with typeCounts := entryIncr st.typeCounts "String" }, 1, [])
  | .num _ => ({ st with typeCounts := entryIncr st.typeCounts "Number" }, 1, [])
  | .bool _ => ({ st with typeCounts := entryIncr st.typeCounts "Boolean" }, 1, [])
  | .null => ({ st with typeCounts := entryIncr st.typeCounts "Null" }, 1, [])

/-- The `for (key, val) in map` loop of the Object branch, with the running
`size` and `keys` as accumulators: insert the key into the key set, recurse
into the value, add the sub-size, extend with the sub-keys. -/
def summarizeEntries (l : List (String × Value)) (depth : Nat) (st : SumState)
    (size : Nat) (keys : List String) : SumState × Nat × List String :=
  match l with
  | [] => (st, size, keys)
  | (k, v) :: rest =>
      let keys1 := hsInsert keys k
      let r := summarizeValue v (depth + 1) st
      summarizeEntries rest depth r.1 (size + r.2.1) (hsExtend keys1 r.2.2)

/-- The `for val in arr` loop of the Array branch, with the running `size`
and `keys` as accumulators: bump nested_lists_with_dicts for EACH element
that is an Object (note: per element, not per array), recurse, add the
sub-size, extend with the sub-keys. -/
def summarizeElems (l : List Value) (depth : Nat) (st : SumState)
    (size : Nat) (keys : List String) : SumState × Nat × List String :=
  match l with
  | [] => (st, size, keys)
  | v :: rest =>
      let r := summarizeValue v (depth + 1) (stBump st v)
      summarizeElems rest depth r.1 (size + r.2.1) (hsExtend keys r.2.2)

end

example :
    summarizeValue (.object [("a", .num (.int 1))]) 0 ⟨[], 0, 0⟩ =
      (⟨[("Object", 1), ("Number", 1)], 1, 0⟩, 2, ["a"]) := by decide

example :
    summarizeValue (.array [.object [], .object []]) 0 ⟨[], 0, 0⟩ =
      (⟨[("Array", 1), ("Object", 2)], 2, 2⟩, 0, []) := by decide

/-- A Python object as seen through the pyo3 boundary of src/lib.rs.  The
constructors cover exactly the dynamic shapes the source distinguishes:
dict, str, int, float (an opaque code plus its finiteness flag, the only
float property the source inspects), bool, None, list, and `other` for any
remaining Python type (named by its type name). -/
inductive PyObj where
  | dict (entries : List (PyObj × PyObj))
  | str (s : String)
  | int (n : Int)
  | float (code : Int) (finite : Bool)
  | boolean (b : Bool)
  | none
  | list (elems : List PyObj)
  | other (typeName : String)

/-- The distinct failure modes of the normalizer in src/lib.rs:
`unsupportedType` is the PyValueError("Unsupported type.") of the final else
branch of py_to_value; `keyNotString` is the pyo3 extraction error raised by
`key.extract::<String>()?` in pydict_to_value when a dict key is not a
Python str; `panicNonFiniteFloat` models the Rust panic raised by
`Number::from_f64(f).unwrap()` when f is NaN or infinite (a panic, not a
returned PyErr). -/
inductive NormError where
  | unsupportedType
  | keyNotString
  | panicNonFiniteFloat
deriving DecidableEq, Repr

/-- The serde_json::Map insert of pydict_to_value: replace the value when the
key is already present (never the case for keys coming from one PyDict),
otherwise append the new entry. -/
def mapInsert : List (String × Value) → String → Value → List (String × Value)
  | [], k, v => [(k, v)]
  | (k0, v0) :: rest, k, v =>
      if k0 = k then (k0, v) :: rest else (k0, v0) :: mapInsert rest k v

mutual

/-- py_to_value from src/lib.rs (lines 18-36): the if/else-if chain of pyo3
extractions, compiled per PyObj constructor to the first extraction that
succeeds in the source's order (dict downcast, String, i64, f64, bool,
None, else error).  A Python bool satisfies the i64 extraction (bool is an
int subclass in Python), so it takes the i64 branch before the bool branch
is ever tried; a list satisfies none of the extractions and falls through
to the PyValueError branch.  The dict branch is the body of
pydict_to_value, inlined here so the mutual recursion is structural; the
standalone pydict_to_value below restates it. -/
def py_to_value : PyObj → Except NormError Value
  | .dict entries =>
      match pydictLoop [] entries with
      | .ok m => .ok (.object m)
      | .error e => .error e
  | .str s => .ok (.str s)
  | .int n => .ok (.num (.int n))
  | .boolean b => .ok (.num (.int (if b then 1 else 0)))
  | .float code finite =>
      if finite then .ok (.num (.float code)) else .error .panicNonFiniteFloat
  | .none => .ok .null
  | .list _ => .error .unsupportedType
  | .other _ => .error .unsupportedType

/-- The `for (key, value) in py_dict` loop of pydict_to_value (src/lib.rs
lines 9-13), with the Map built so far as the accumulator: extract the key
as a String (failing when it is not a str), convert the value, insert,
continue. -/
def pydictLoop (acc : List (String × Value)) :
    List (PyObj × PyObj) → Except NormError (List (String × Value))
  | [] => .ok acc
  | (k, v) :: rest =>
      match k with
      | .str s =>
          match py_to_value v with
          | .ok val => pydictLoop (mapInsert acc s val) rest
          | .error e => .error e
      | _ => .error .keyNotString

end

/-- pydict_to_value from src/lib.rs (lines 7-15): builds the Map over the
dict's entries and wraps it in Value::Object. -/
def pydict_to_value (entries : List (PyObj × PyObj)) : Except NormError Value :=
  match pydictLoop [] entries with
  | .ok m => .ok (.object m)
  | .error e => .error e

/-- The dict branch of py_to_value is exactly pydict_to_value, as in the
source. -/
theorem py_to_value_dict (entries : List (PyObj × PyObj)) :
    py_to_value (.dict entries) = pydict_to_value entries := rfl

/-- An admissible iteration order for a Rust HashSet of Strings: a function
enumerating the set's elements (here represented as the model's list) in
some order.  The concrete order of `keys.into_iter().collect::<Vec<_>>()`
in summarize_large_json depends on the HashSet's per-instance RandomState,
so the embedding takes the order as a parameter constrained only to be a
permutation of the set's elements. -/
def ValidOrder (ord : List String → List String) : Prop :=
  ∀ l : List String, (ord l).Perm l

/-- One admissible HashSet iteration order: the model list's own order. -/
def idOrder (l : List String) : List String := l

/-- Another admissible HashSet iteration order: the reversed model list. -/
def revOrder (l : List String) : List String := l.reverse

/-- summarize_large_json from src/lib.rs (lines 104-128): normalize the
top-level dict, run summarize_value on the result with empty accumulators,
and return the 5-tuple (size, keys as a Vec in HashSet iteration order,
nested_dicts, type_counts, nested_lists_with_dicts). -/
def summarize_large_json (ord : List String → List String)
    (entries : List (PyObj × PyObj)) :
    Except NormError (Nat × List String × Nat × List (String × Nat) × Nat) :=
  match pydict_to_value entries with
  | .error e => .error e
  | .ok json =>
      let r := summarizeValue json 0 ⟨[], 0, 0⟩
      .ok (r.2.1, ord r.2.2, r.1.nestedDicts, r.1.typeCounts, r.1.nestedListsWithDicts)

example :
    summarize_large_json idOrder [] = .ok (0, [], 1, [("Object", 1)], 0) := rfl

example :
    summarize_large_json idOrder [(.str "a", .int 1), (.str "b", .str "x")] =
      .ok (4, ["a", "b"], 1, [("Object", 1), ("Number", 1), ("String", 1)], 0) := rfl

/-
Specification-side counting functions over Value trees, used to state the
claims.  Each is a plain structural recursion over the tree.
-/

mutual

/-- The list of type tags of all nodes of a Value tree, in preorder.  Each
node contributes its own tag exactly once, so counts over this list are
node counts per variant. -/
def tagTrace : Value → List String
  | .object m => "Object" :: tagTraceEntries m
  | .array l => "Array" :: tagTraceElems l
  | .str _ => ["String"]
  | .num _ => ["Number"]
  | .bool _ => ["Boolean"]
  | .null => ["Null"]

/-- Tags of all nodes below a list of object entries. -/
def tagTraceEntries : List (String × Value) → List String
  | [] => []
  | (_, v) :: rest => tagTrace v ++ tagTraceEntries rest

/-- Tags of all nodes below a list of array elements. -/
def tagTraceElems : List Value → List String
  | [] => []
  | v :: rest => tagTrace v ++ tagTraceElems rest

end

/-- Number of nodes of the given variant tag in a Value tree. -/
def countNodesTag (tag : String) (v : Value) : Nat := (tagTrace v).count tag

/-- Whether a type tag is one of the four scalar-leaf tags (String, Number,
Boolean, Null). -/
def scalarTagB (t : String) : Bool :=
  t == "String" || t == "Number" || t == "Boolean" || t == "Null"

/-- Number of scalar-leaf tags (String, Number, Boolean, Null) in a tag
list. -/
def scalarLeavesOf : List String → Nat
  | [] => 0
  | t :: tr => cond (scalarTagB t) 1 0 + scalarLeavesOf tr

/-- Number of scalar leaf nodes (String, Number, Boolean, Null) of a Value
tree. -/
def scalarLeaves (v : Value) : Nat := scalarLeavesOf (tagTrace v)

theorem scalarLeavesOf_append (t1 t2 : List String) :
    scalarLeavesOf (t1 ++ t2) = scalarLeavesOf t1 + scalarLeavesOf t2 := by
  induction t1 with
  | nil => simp [scalarLeavesOf]
  | cons t tr ih => simp [scalarLeavesOf, ih]; omega

mutual

/-- Total number of key-value entries summed across all Object nodes of a
Value tree. -/
def entriesTotal : Value → Nat
  | .object m => m.length + entriesTotalEntries m
  | .array l => entriesTotalElems l
  | _ => 0

/-- entriesTotal summed over the values of a list of object entries. -/
def entriesTotalEntries : List (String × Value) → Nat
  | [] => 0
  | (_, v) :: rest => entriesTotal v + entriesTotalEntries rest

/-- entriesTotal summed over a list of array elements. -/
def entriesTotalElems : List Value → Nat
  | [] => 0
  | v :: rest => entriesTotal v + entriesTotalElems rest

end

mutual

/-- Total number of direct Object children summed across all Array nodes of
a Value tree (each Array node contributes the number of its elements that
are Objects). -/
def objChildrenInArrays : Value → Nat
  | .object m => objChildrenEntries m
  | .array l => l.countP isObjectB + objChildrenElems l
  | _ => 0

/-- objChildrenInArrays summed over the values of a list of object
entries. -/
def objChildrenEntries : List (String × Value) → Nat
  | [] => 0
  | (_, v) :: rest => objChildrenInArrays v + objChildrenEntries rest

/-- objChildrenInArrays summed over a list of array elements. -/
def objChildrenElems : List Value → Nat
  | [] => 0
  | v :: rest => objChildrenInArrays v + objChildrenElems rest

end

mutual

/-- Number of Array nodes of a Value tree that contain at least one direct
child of variant Object, each qualifying Array node counted exactly once
(the quantity named by the specification). -/
def arraysWithObjChild : Value → Nat
  | .object m => arraysWithObjChildEntries m
  | .array l => (if l.any isObjectB then 1 else 0) + arraysWithObjChildElems l
  | _ => 0

/-- arraysWithObjChild summed over the values of a list of object
entries. -/
def arraysWithObjChildEntries : List (String × Value) → Nat
  | [] => 0
  | (_, v) :: rest => arraysWithObjChild v + arraysWithObjChildEntries rest

/-- arraysWithObjChild summed over a list of array elements. -/
def arraysWithObjChildElems : List Value → Nat
  | [] => 0
  | v :: rest => arraysWithObjChild v + arraysWithObjChildElems rest

end

mutual

/-- The union, over every Object node of a Value tree, of that object's own
key names. -/
def keysSpec : Value → Finset String
  | .object m => keysSpecEntries m
  | .array l => keysSpecElems l
  | _ => ∅

/-- Keys of a list of object entries: each entry's own key together with all
keys below its value. -/
def keysSpecEntries : List (String × Value) → Finset String
  | [] => ∅
  | (k, v) :: rest => insert k (keysSpec v ∪ keysSpecEntries rest)

/-- keysSpec united over a list of array elements. -/
def keysSpecElems : List Value → Finset String
  | [] => ∅
  | v :: rest => keysSpec v ∪ keysSpecElems rest

end

/-
Association-list (HashMap model) helper functions and lemmas.
-/

/-- Repeated entryIncr over a list of tags: the histogram obtained from a
sequence of type observations. -/
def incrMany (m : List (String × Nat)) (tags : List String) : List (String × Nat) :=
  tags.foldl entryIncr m

/-- HashMap::get on the association-list model. -/
def lookupC : List (String × Nat) → String → Option Nat
  | [], _ => Option.none
  | (k0, v) :: rest, k => if k0 = k then some v else lookupC rest k

/-- Sum of all values of the association-list histogram. -/
def sumValues (m : List (String × Nat)) : Nat := (m.map fun e => e.2).sum

theorem incrMany_nil (m : List (String × Nat)) : incrMany m [] = m := rfl

theorem incrMany_cons (m : List (String × Nat)) (t : String) (ts : List String) :
    incrMany m (t :: ts) = incrMany (entryIncr m t) ts := rfl

theorem incrMany_append (m : List (String × Nat)) (t1 t2 : List String) :
    incrMany m (t1 ++ t2) = incrMany (incrMany m t1) t2 :=
  List.foldl_append ..

theorem lookupC_entryIncr (m : List (String × Nat)) (k k2 : String) :
    lookupC (entryIncr m k) k2 =
      if k2 = k then some ((lookupC m k2).getD 0 + 1) else lookupC m k2 := by
  induction m with
  | nil =>
      by_cases h : k2 = k
      · subst h; simp [entryIncr, lookupC]
      · simp [entryIncr, lookupC, h, Ne.symm h]
  | cons e rest ih =>
      obtain ⟨k0, v⟩ := e
      by_cases h0 : k0 = k
      · subst h0
        by_cases h2 : k2 = k0
        · subst h2; simp [entryIncr, lookupC]
        · simp [entryIncr, lookupC, h2, Ne.symm h2]
      · by_cases h2 : k2 = k0
        · subst h2
          simp [entryIncr, lookupC, h0, Ne.symm h0]
        · simp [entryIncr, lookupC, h0, h2, Ne.symm h2, ih]

theorem lookupC_incrMany (m : List (String × Nat)) (tags : List String) (k : String) :
    lookupC (incrMany m tags) k =
      if tags.count k = 0 then lookupC m k
      else some ((lookupC m k).getD 0 + tags.count k) := by
  induction tags generalizing m with
  | nil => simp [incrMany_nil]
  | cons t ts ih =>
      rw [incrMany_cons, ih, lookupC_entryIncr]
      by_cases h : k = t
      · subst h
        simp only [List.count_cons_self]
        by_cases h0 : ts.count k = 0 <;> simp [h0] <;> omega
      · have : (t :: ts).count k = ts.count k := by
          simp [List.count_cons, h]
        rw [this]
        simp [h]

theorem sumValues_entryIncr (m : List (String × Nat)) (k : String) :
    sumValues (entryIncr m k) = sumValues m + 1 := by
  induction m with
  | nil => simp [entryIncr, sumValues]
  | cons e rest ih =>
      obtain ⟨k0, v⟩ := e
      by_cases h : k0 = k
      · simp [entryIncr, sumValues, h]
        omega
      · simp only [entryIncr, sumValues, h, if_neg, ite_false, List.map_cons,
          List.sum_cons]
        simp only [sumValues] at ih
        omega

theorem sumValues_incrMany (m : List (String × Nat)) (tags : List String) :
    sumValues (incrMany m tags) = sumValues m + tags.length := by
  induction tags generalizing m with
  | nil => simp [incrMany_nil]
  | cons t ts ih =>
      rw [incrMany_cons, ih, sumValues_entryIncr, List.length_cons]; omega

/-
Key-set (HashSet model) lemmas.
-/

theorem hsInsert_toFinset (l : List String) (k : String) :
    (hsInsert l k).toFinset = insert k l.toFinset := by
  by_cases h : k ∈ l
  · simp [hsInsert, h]
  · simp only [hsInsert, h, if_neg, ite_false]
    ext x
    simp [or_comm]

theorem hsExtend_toFinset (l l2 : List String) :
    (hsExtend l l2).toFinset = l.toFinset ∪ l2.toFinset := by
  induction l2 generalizing l with
  | nil => simp [hsExtend]
  | cons x xs ih =>
      have : hsExtend l (x :: xs) = hsExtend (hsInsert l x) xs := rfl
      rw [this, ih, hsInsert_toFinset]
      ext y
      simp

theorem stBump_typeCounts (st : SumState) (v : Value) :
    (stBump st v).typeCounts = st.typeCounts := by
  unfold stBump; split <;> rfl

theorem stBump_nestedDicts (st : SumState) (v : Value) :
    (stBump st v).nestedDicts = st.nestedDicts := by
  unfold stBump; split <;> rfl

theorem stBump_nestedListsWithDicts (st : SumState) (v : Value) :
    (stBump st v).nestedListsWithDicts =
      st.nestedListsWithDicts + (if isObjectB v then 1 else 0) := by
  unfold stBump; split <;> simp

theorem scalarTagB_object : scalarTagB "Object" = false := by decide

theorem scalarTagB_array : scalarTagB "Array" = false := by decide

theorem scalarTagB_string : scalarTagB "String" = true := by decide

theorem scalarTagB_number : scalarTagB "Number" = true := by decide

theorem scalarTagB_boolean : scalarTagB "Boolean" = true := by decide

theorem scalarTagB_null : scalarTagB "Null" = true := by decide

/-
The characterization of summarize_value: one mutual induction relating each
component of its result to the specification-side counting functions.
-/

mutual

theorem summarizeValue_char (v : Value) (d : Nat) (st : SumState) :
    (summarizeValue v d st).1.typeCounts = incrMany st.typeCounts (tagTrace v)
      ∧ (summarizeValue v d st).1.nestedDicts =
          st.nestedDicts + (tagTrace v).count "Object"
      ∧ (summarizeValue v d st).1.nestedListsWithDicts =
          st.nestedListsWithDicts + objChildrenInArrays v
      ∧ (summarizeValue v d st).2.1 = scalarLeavesOf (tagTrace v) + entriesTotal v
      ∧ (summarizeValue v d st).2.2.toFinset = keysSpec v := by
  cases v with
  | object m =>
      obtain ⟨h1, h2, h3, h4, h5⟩ := summarizeEntries_char m d
        ⟨entryIncr st.typeCounts "Object", st.nestedDicts + 1, st.nestedListsWithDicts⟩
        m.length []
      have e0 : summarizeValue (.object m) d st =
          summarizeEntries m d
            ⟨entryIncr st.typeCounts "Object", st.nestedDicts + 1,
             st.nestedListsWithDicts⟩ m.length [] := rfl
      refine ⟨?_, ?_, ?_, ?_, ?_⟩
      · rw [e0, h1]; dsimp only; simp [tagTrace, incrMany_cons]
      · rw [e0, h2]; dsimp only
        simp only [tagTrace, List.count_cons_self] <;> omega
      · rw [e0, h3]; dsimp only; simp [objChildrenInArrays]
      · rw [e0, h4]
        simp only [tagTrace, entriesTotal, scalarLeavesOf, scalarTagB_object,
          Bool.cond_false] <;> omega
      · rw [e0, h5]; simp [keysSpec]
  | array arr =>
      obtain ⟨h1, h2, h3, h4, h5⟩ := summarizeElems_char arr d
        ⟨entryIncr st.typeCounts "Array", st.nestedDicts, st.nestedListsWithDicts⟩ 0 []
      have e0 : summarizeValue (.array arr) d st =
          summarizeElems arr d
            ⟨entryIncr st.typeCounts "Array", st.nestedDicts,
             st.nestedListsWithDicts⟩ 0 [] := rfl
      refine ⟨?_, ?_, ?_, ?_, ?_⟩
      · rw [e0, h1]; dsimp only; simp [tagTrace, incrMany_cons]
      · rw [e0, h2]; dsimp only
        simp [tagTrace,
          List.count_cons_of_ne (show ("Object" : String) ≠ "Array" by decide)]
      · rw [e0, h3]; dsimp only; simp [objChildrenInArrays]
      · rw [e0, h4]
        simp only [tagTrace, entriesTotal, scalarLeavesOf, scalarTagB_array,
          Bool.cond_false]
      · rw [e0, h5]; simp [keysSpec]
  | str s0 =>
      refine ⟨?_, ?_, ?_, ?_, ?_⟩ <;>
        simp [summarizeValue, tagTrace, objChildrenInArrays, entriesTotal,
          keysSpec, scalarLeavesOf, scalarTagB_string, incrMany]
  | num n0 =>
      refine ⟨?_, ?_, ?_, ?_, ?_⟩ <;>
        simp [summarizeValue, tagTrace, objChildrenInArrays, entriesTotal,
          keysSpec, scalarLeavesOf, scalarTagB_number, incrMany]
  | bool b0 =>
      refine ⟨?_, ?_, ?_, ?_, ?_⟩ <;>
        simp [summarizeValue, tagTrace, objChildrenInArrays, entriesTotal,
          keysSpec, scalarLeavesOf, scalarTagB_boolean, incrMany]
  | null =>
      refine ⟨?_, ?_, ?_, ?_, ?_⟩ <;>
        simp [summarizeValue, tagTrace, objChildrenInArrays, entriesTotal,
          keysSpec, scalarLeavesOf, scalarTagB_null, incrMany]

theorem summarizeEntries_char (l : List (String × Value)) (d : Nat) (st : SumState)
    (size : Nat) (keys : List String) :
    (summarizeEntries l d st size keys).1.typeCounts =
        incrMany st.typeCounts (tagTraceEntries l)
      ∧ (summarizeEntries l d st size keys).1.nestedDicts =
          st.nestedDicts + (tagTraceEntries l).count "Object"
      ∧ (summarizeEntries l d st size keys).1.nestedListsWithDicts =
          st.nestedListsWithDicts + objChildrenEntries l
      ∧ (summarizeEntries l d st size keys).2.1 =
          size + scalarLeavesOf (tagTraceEntries l) + entriesTotalEntries l
      ∧ (summarizeEntries l d st size keys).2.2.toFinset =
          keys.toFinset ∪ keysSpecEntries l := by
  cases l with
  | nil =>
      refine ⟨?_, ?_, ?_, ?_, ?_⟩ <;>
        simp [summarizeEntries, tagTraceEntries, objChildrenEntries,
          entriesTotalEntries, keysSpecEntries, scalarLeavesOf, incrMany]
  | cons e rest =>
      obtain ⟨k, v⟩ := e
      obtain ⟨hv1, hv2, hv3, hv4, hv5⟩ := summarizeValue_char v (d + 1) st
      obtain ⟨h1, h2, h3, h4, h5⟩ := summarizeEntries_char rest d
        (summarizeValue v (d + 1) st).1
        (size + (summarizeValue v (d + 1) st).2.1)
        (hsExtend (hsInsert keys k) (summarizeValue v (d + 1) st).2.2)
      have e0 : summarizeEntries ((k, v) :: rest) d st size keys =
          summarizeEntries rest d (summarizeValue v (d + 1) st).1
            (size + (summarizeValue v (d + 1) st).2.1)
            (hsExtend (hsInsert keys k) (summarizeValue v (d + 1) st).2.2) := rfl
      refine ⟨?_, ?_, ?_, ?_, ?_⟩
      · rw [e0, h1, hv1]
        simp [tagTraceEntries, incrMany_append]
      · rw [e0, h2, hv2]
        simp only [tagTraceEntries, List.count_append] <;> omega
      · rw [e0, h3, hv3]
        simp only [objChildrenEntries] <;> omega
      · rw [e0, h4, hv4]
        simp only [tagTraceEntries, scalarLeavesOf_append, entriesTotalEntries] <;>
          omega
      · rw [e0, h5, hsExtend_toFinset, hsInsert_toFinset, hv5]
        simp only [keysSpecEntries]
        ext x
        simp

theorem summarizeElems_char (l : List Value) (d : Nat) (st : SumState)
    (size : Nat) (keys : List String) :
    (summarizeElems l d st size keys).1.typeCounts =
        incrMany st.typeCounts (tagTraceElems l)
      ∧ (summarizeElems l d st size keys).1.nestedDicts =
          st.nestedDicts + (tagTraceElems l).count "Object"
      ∧ (summarizeElems l d st size keys).1.nestedListsWithDicts =
          st.nestedListsWithDicts + (l.countP isObjectB + objChildrenElems l)
      ∧ (summarizeElems l d st size keys).2.1 =
          size + scalarLeavesOf (tagTraceElems l) + entriesTotalElems l
      ∧ (summarizeElems l d st size keys).2.2.toFinset =
          keys.toFinset ∪ keysSpecElems l := by
  cases l with
  | nil =>
      refine ⟨?_, ?_, ?_, ?_, ?_⟩ <;>
        simp [summarizeElems, tagTraceElems, objChildrenElems,
          entriesTotalElems, keysSpecElems, scalarLeavesOf, incrMany]
  | cons v rest =>
      obtain ⟨hv1, hv2, hv3, hv4, hv5⟩ := summarizeValue_char v (d + 1) (stBump st v)
      obtain ⟨h1, h2, h3, h4, h5⟩ := summarizeElems_char rest d
        (summarizeValue v (d + 1) (stBump st v)).1
        (size + (summarizeValue v (d + 1) (stBump st v)).2.1)
        (hsExtend keys (summarizeValue v (d + 1) (stBump st v)).2.2)
      have e0 : summarizeElems (v :: rest) d st size keys =
          summarizeElems rest d
            (summarizeValue v (d + 1) (stBump st v)).1
            (size + (summarizeValue v (d + 1) (stBump st v)).2.1)
            (hsExtend keys (summarizeValue v (d + 1) (stBump st v)).2.2) := rfl
      refine ⟨?_, ?_, ?_, ?_, ?_⟩
      · rw [e0, h1, hv1, stBump_typeCounts]
        simp [tagTraceElems, incrMany_append]
      · rw [e0, h2, hv2, stBump_nestedDicts]
        simp only [tagTraceElems, List.count_append] <;> omega
      · rw [e0, h3, hv3, stBump_nestedListsWithDicts]
        simp only [objChildrenElems, List.countP_cons]
        cases hb : isObjectB v <;> simp [hb] <;> omega
      · rw [e0, h4, hv4]
        simp only [tagTraceElems, scalarLeavesOf_append, entriesTotalElems] <;>
          omega
      · rw [e0, h5, hsExtend_toFinset, hv5]
        simp only [keysSpecElems]
        ext x
        simp

end

/-
Tag-trace accounting: every node contributes exactly one tag, so the trace
length decomposes into Object, Array and scalar-leaf counts.
-/

mutual

theorem tagTrace_length (v : Value) :
    (tagTrace v).length =
      (tagTrace v).count "Object" + (tagTrace v).count "Array" +
        scalarLeavesOf (tagTrace v) := by
  cases v with
  | object m =>
      have ih := tagTraceEntries_length m
      simp only [tagTrace, List.length_cons, List.count_cons_self,
        List.count_cons_of_ne (show ("Array" : String) ≠ "Object" by decide),
        scalarLeavesOf, scalarTagB_object, Bool.cond_false]
      omega
  | array arr =>
      have ih := tagTraceElems_length arr
      simp only [tagTrace, List.length_cons, List.count_cons_self,
        List.count_cons_of_ne (show ("Object" : String) ≠ "Array" by decide),
        scalarLeavesOf, scalarTagB_array, Bool.cond_false]
      omega
  | str s0 => simp only [tagTrace]; decide
  | num n0 => simp only [tagTrace]; decide
  | bool b0 => simp only [tagTrace]; decide
  | null => simp only [tagTrace]; decide

theorem tagTraceEntries_length (l : List (String × Value)) :
    (tagTraceEntries l).length =
      (tagTraceEntries l).count "Object" + (tagTraceEntries l).count "Array" +
        scalarLeavesOf (tagTraceEntries l) := by
  cases l with
  | nil => decide
  | cons e rest =>
      obtain ⟨k, v⟩ := e
      have ih1 := tagTrace_length v
      have ih2 := tagTraceEntries_length rest
      simp only [tagTraceEntries, List.length_append, List.count_append,
        scalarLeavesOf_append]
      omega

theorem tagTraceElems_length (l : List Value) :
    (tagTraceElems l).length =
      (tagTraceElems l).count "Object" + (tagTraceElems l).count "Array" +
        scalarLeavesOf (tagTraceElems l) := by
  cases l with
  | nil => decide
  | cons v rest =>
      have ih1 := tagTrace_length v
      have ih2 := tagTraceElems_length rest
      simp only [tagTraceElems, List.length_append, List.count_append,
        scalarLeavesOf_append]
      omega

end

/-
Unsupported values: the claim-side predicate for inputs containing a value
of a type outside the six supported shapes (a custom opaque object,
modelled by the `other` constructor) anywhere in the tree, and the proof
that the normalizer rejects every such input.
-/

mutual

/-- Whether a Python value contains, anywhere in its tree (including dict
keys), a value of an unsupported type (the `other` constructor). -/
def hasUnsupported : PyObj → Bool
  | .dict entries => hasUnsupportedEntries entries
  | .list elems => hasUnsupportedElems elems
  | .other _ => true
  | _ => false

/-- hasUnsupported over the key/value pairs of a dict. -/
def hasUnsupportedEntries : List (PyObj × PyObj) → Bool
  | [] => false
  | (k, v) :: rest =>
      hasUnsupported k || hasUnsupported v || hasUnsupportedEntries rest

/-- hasUnsupported over the elements of a list. -/
def hasUnsupportedElems : List PyObj → Bool
  | [] => false
  | v :: rest => hasUnsupported v || hasUnsupportedElems rest

end

mutual

theorem hasUnsupported_errors (p : PyObj) (h : hasUnsupported p = true) :
    ∃ e, py_to_value p = .error e := by
  cases p with
  | dict entries =>
      obtain ⟨e, he⟩ :=
        hasUnsupportedEntries_errors entries (by simpa [hasUnsupported] using h) []
      exact ⟨e, by simp [py_to_value, he]⟩
  | str s0 => simp [hasUnsupported] at h
  | int n0 => simp [hasUnsupported] at h
  | float c f => simp [hasUnsupported] at h
  | boolean b0 => simp [hasUnsupported] at h
  | none => simp [hasUnsupported] at h
  | list elems => exact ⟨.unsupportedType, rfl⟩
  | other t => exact ⟨.unsupportedType, rfl⟩

theorem hasUnsupportedEntries_errors (l : List (PyObj × PyObj))
    (h : hasUnsupportedEntries l = true) (acc : List (String × Value)) :
    ∃ e, pydictLoop acc l = .error e := by
  cases l with
  | nil => simp [hasUnsupportedEntries] at h
  | cons kv rest =>
      obtain ⟨k, v⟩ := kv
      cases k with
      | str s =>
          have h2 : hasUnsupported v = true ∨ hasUnsupportedEntries rest = true := by
            simp [hasUnsupportedEntries, hasUnsupported] at h
            tauto
          cases hpv : py_to_value v with
          | error e => exact ⟨e, by simp [pydictLoop, hpv]⟩
          | ok val =>
              cases h2 with
              | inl hv =>
                  obtain ⟨e, he⟩ := hasUnsupported_errors v hv
                  rw [hpv] at he
                  exact absurd he (by simp)
              | inr hrest =>
                  obtain ⟨e, he⟩ :=
                    hasUnsupportedEntries_errors rest hrest (mapInsert acc s val)
                  exact ⟨e, by simp [pydictLoop, hpv, he]⟩
      | dict d0 => exact ⟨.keyNotString, rfl⟩
      | int n0 => exact ⟨.keyNotString, rfl⟩
      | float c f => exact ⟨.keyNotString, rfl⟩
      | boolean b0 => exact ⟨.keyNotString, rfl⟩
      | none => exact ⟨.keyNotString, rfl⟩
      | list l0 => exact ⟨.keyNotString, rfl⟩
      | other t0 => exact ⟨.keyNotString, rfl⟩

end

/-
Iteration orders and decidable equality of results.
-/

theorem validOrder_idOrder : ValidOrder idOrder := fun l => List.Perm.refl l

theorem validOrder_revOrder : ValidOrder revOrder := fun l => List.reverse_perm l

theorem perm_toFinset {l1 l2 : List String} (h : l1.Perm l2) :
    l1.toFinset = l2.toFinset := by
  ext x
  simp [List.mem_toFinset, h.mem_iff]

example :
    summarize_large_json idOrder [(.str "a", .int 1), (.str "b", .int 2)] =
      .ok (4, ["a", "b"], 1, [("Object", 1), ("Number", 2)], 0) := rfl

example :
    summarize_large_json revOrder [(.str "a", .int 1), (.str "b", .int 2)] =
      .ok (4, ["b", "a"], 1, [("Object", 1), ("Number", 2)], 0) := rfl

example :
    summarize_large_json idOrder [(.str "a", .int 1)] =
      .ok (2, ["a"], 1, [("Object", 1), ("Number", 1)], 0) := rfl

/-
Claim theorems.
-/

/-- C1 (counterexample): the claim that nested_array_with_object_count counts
each qualifying Array node exactly once fails on the code: for the tree
[{}, {}] (one Array with two direct Object children) summarize_value
returns nested_lists_with_dicts = 2, while the number of Array nodes with
at least one direct Object child is 1. -/
theorem c1_per_array_counting_refuted :
    ¬ ((summarizeValue (Value.array [Value.object [], Value.object []]) 0
          ⟨[], 0, 0⟩).1.nestedListsWithDicts =
        arraysWithObjChild (Value.array [Value.object [], Value.object []])) := by
  decide

/-- C1 (amended): for every Tagged Value tree, the returned
nested_array_with_object_count equals the total number of direct Object
children summed across all Array nodes of the tree (one increment per
Object element, not one per qualifying array). -/
theorem c1_nested_array_with_object_count_amended (v : Value) :
    (summarizeValue v 0 ⟨[], 0, 0⟩).1.nestedListsWithDicts =
      objChildrenInArrays v := by
  obtain ⟨_, _, h3, _, _⟩ := summarizeValue_char v 0 ⟨[], 0, 0⟩
  simpa using h3

/-- C2 (code divergence): a sequence (Python list) input is not handled by
any branch of py_to_value and is rejected as "Unsupported type.", both
directly and through the whole pipeline, although the summarizer has a
dedicated Array branch; the claim that list inputs normalize to an Array
value fails on the code. -/
theorem c2_sequence_rejected :
    py_to_value (.list [.int 1, .int 2, .int 3]) = .error .unsupportedType ∧
      summarize_large_json idOrder [(.str "a", .list [.int 1, .int 2, .int 3])] =
        .error .unsupportedType :=
  ⟨rfl, rfl⟩

/-- C3 (counterexample): on input made of keys a -> 1 and b -> "x" the
pipeline (under an admissible key iteration order) returns size = 4, not
size = 2 as the claim states: the object contributes its 2 entries and each
of the 2 scalar leaves contributes 1. -/
theorem c3_scenario2_size_is_four :
    ValidOrder idOrder ∧
      summarize_large_json idOrder [(.str "a", .int 1), (.str "b", .str "x")] =
        .ok (4, ["a", "b"], 1, [("Object", 1), ("Number", 1), ("String", 1)], 0) ∧
      (4 : Nat) ≠ 2 :=
  ⟨validOrder_idOrder, rfl, by decide⟩

/-- C3 (amended): for the input with keys a -> 1 and b -> "x", under every
admissible HashSet iteration order the pipeline returns size = 4,
keys = the set \x7b"a","b"\x7d (sequence order unconstrained),
nested_object_count = 1, type_histogram \x7bObject 1, Number 1, String 1\x7d and
nested_array_with_object_count = 0. -/
theorem c3_scenario2_amended (ord : List String → List String) (h : ValidOrder ord) :
    ∃ ks : List String,
      summarize_large_json ord [(.str "a", .int 1), (.str "b", .str "x")] =
        .ok (4, ks, 1, [("Object", 1), ("Number", 1), ("String", 1)], 0) ∧
      ks.toFinset = ({"a", "b"} : Finset String) := by
  refine ⟨ord ["a", "b"], rfl, ?_⟩
  rw [perm_toFinset (h ["a", "b"])]
  decide

/-- C3 witness: the amended claim at the identity iteration order. -/
theorem c3_scenario2_amended_witness :
    ∃ ks : List String,
      summarize_large_json idOrder [(.str "a", .int 1), (.str "b", .str "x")] =
        .ok (4, ks, 1, [("Object", 1), ("Number", 1), ("String", 1)], 0) ∧
      ks.toFinset = ({"a", "b"} : Finset String) :=
  c3_scenario2_amended idOrder validOrder_idOrder

/-- C4: for every Tagged Value tree, the returned size equals the number of
scalar leaf nodes (String, Number, Boolean, Null) plus the total number of
key-value entries summed across all Object nodes; Array nodes contribute
nothing directly. -/
theorem c4_size_additivity (v : Value) :
    (summarizeValue v 0 ⟨[], 0, 0⟩).2.1 = scalarLeaves v + entriesTotal v := by
  obtain ⟨_, _, _, h4, _⟩ := summarizeValue_char v 0 ⟨[], 0, 0⟩
  simpa [scalarLeaves] using h4

/-- C5 (code divergence): a float that is not a finite double makes
py_to_value abort through the Rust panic of Number::from_f64(f).unwrap()
(modelled as the distinguished panicNonFiniteFloat outcome), which is not
the PyValueError "Unsupported type." error path the claim requires. -/
theorem c5_nonfinite_float_panics :
    py_to_value (.float 0 false) = .error .panicNonFiniteFloat ∧
      NormError.panicNonFiniteFloat ≠ NormError.unsupportedType :=
  ⟨rfl, by decide⟩

/-- C6: every input whose tree contains a value of an unsupported type
anywhere fails the whole call with a single propagated error, and no
Summary Result is ever returned for it. -/
theorem c6_unsupported_rejected (ord : List String → List String)
    (entries : List (PyObj × PyObj))
    (h : hasUnsupported (.dict entries) = true) :
    (∃ e, summarize_large_json ord entries = .error e) ∧
      ∀ r, summarize_large_json ord entries ≠ .ok r := by
  obtain ⟨e, he⟩ := hasUnsupported_errors (.dict entries) h
  rw [py_to_value_dict] at he
  constructor
  · exact ⟨e, by simp [summarize_large_json, he]⟩
  · intro r hr
    rw [summarize_large_json, he] at hr
    exact absurd hr (by simp)

/-- C6 witness: a dict whose value is an opaque unsupported object is
rejected by the pipeline. -/
theorem c6_unsupported_rejected_witness :
    (∃ e, summarize_large_json idOrder [(.str "a", .other "complex")] = .error e) ∧
      ∀ r, summarize_large_json idOrder [(.str "a", .other "complex")] ≠ .ok r :=
  c6_unsupported_rejected idOrder [(.str "a", .other "complex")] (by decide)

/-- C7: for every Tagged Value tree and every tag, the returned
type_histogram has an entry for the tag exactly when at least one node of
that variant occurs in the tree, and the entry's value is then the number
of such nodes (absent tags are absent, never present with value zero). -/
theorem c7_histogram_entries (v : Value) (tag : String) :
    lookupC (summarizeValue v 0 ⟨[], 0, 0⟩).1.typeCounts tag =
      if countNodesTag tag v = 0 then Option.none
      else some (countNodesTag tag v) := by
  obtain ⟨h1, _, _, _, _⟩ := summarizeValue_char v 0 ⟨[], 0, 0⟩
  rw [h1]
  dsimp only
  rw [lookupC_incrMany]
  simp [lookupC, countNodesTag]

/-- C8: for every Tagged Value tree, the sum of all values of the returned
type_histogram equals nested_object_count plus the number of Array nodes
plus the number of scalar leaf nodes. -/
theorem c8_histogram_completeness (v : Value) :
    sumValues (summarizeValue v 0 ⟨[], 0, 0⟩).1.typeCounts =
      (summarizeValue v 0 ⟨[], 0, 0⟩).1.nestedDicts +
        countNodesTag "Array" v + scalarLeaves v := by
  obtain ⟨h1, h2, _, _, _⟩ := summarizeValue_char v 0 ⟨[], 0, 0⟩
  rw [h1, h2, sumValues_incrMany]
  dsimp only
  have hlen := tagTrace_length v
  simp only [sumValues, List.map_nil, List.sum_nil, countNodesTag, scalarLeaves]
  omega

/-- C9 (counterexample): bitwise determinism of the full result fails:
the keys Vec depends on the HashSet iteration order, and two admissible
orders give different 5-tuples on the two-key input a -> 1, b -> 2. -/
theorem c9_bitwise_determinism_refuted :
    ValidOrder idOrder ∧ ValidOrder revOrder ∧
      summarize_large_json idOrder [(.str "a", .int 1), (.str "b", .int 2)] ≠
        summarize_large_json revOrder [(.str "a", .int 1), (.str "b", .int 2)] :=
  ⟨validOrder_idOrder, validOrder_revOrder, by
    have e1 : summarize_large_json idOrder [(.str "a", .int 1), (.str "b", .int 2)] =
        .ok (4, ["a", "b"], 1, [("Object", 1), ("Number", 2)], 0) := rfl
    have e2 : summarize_large_json revOrder [(.str "a", .int 1), (.str "b", .int 2)] =
        .ok (4, ["b", "a"], 1, [("Object", 1), ("Number", 2)], 0) := rfl
    rw [e1, e2]
    intro h
    have h3 : (["a", "b"] : List String) = ["b", "a"] :=
      congrArg (fun r => r.2.1) (Except.ok.inj h)
    exact absurd h3 (by decide)⟩

/-- C9 (amended): two runs of the pipeline on the same input under any two
admissible key iteration orders agree on size, nested_object_count,
type_histogram and nested_array_with_object_count, and their keys
sequences are equal as sets; only the key sequence order may differ. -/
theorem c9_determinism_up_to_key_order (o1 o2 : List String → List String)
    (entries : List (PyObj × PyObj))
    (h1 : ValidOrder o1) (h2 : ValidOrder o2)
    (r1 r2 : Nat × List String × Nat × List (String × Nat) × Nat)
    (e1 : summarize_large_json o1 entries = .ok r1)
    (e2 : summarize_large_json o2 entries = .ok r2) :
    r1.1 = r2.1 ∧ r1.2.1.toFinset = r2.2.1.toFinset ∧ r1.2.2.1 = r2.2.2.1 ∧
      r1.2.2.2.1 = r2.2.2.2.1 ∧ r1.2.2.2.2 = r2.2.2.2.2 := by
  unfold summarize_large_json at e1 e2
  cases hpd : pydict_to_value entries with
  | error e =>
      rw [hpd] at e1
      exact absurd e1 (by simp)
  | ok json =>
      rw [hpd] at e1 e2
      injection e1 with e1
      injection e2 with e2
      subst e1
      subst e2
      refine ⟨rfl, ?_, rfl, rfl, rfl⟩
      exact (perm_toFinset (h1 _)).trans (perm_toFinset (h2 _)).symm

/-- C9 witness: the amended determinism applied to the one-key input a -> 1
under the identity and reversed iteration orders. -/
theorem c9_determinism_up_to_key_order_witness :
    ((2, ["a"], 1, [("Object", 1), ("Number", 1)], 0) :
        Nat × List String × Nat × List (String × Nat) × Nat).1 =
      ((2, ["a"], 1, [("Object", 1), ("Number", 1)], 0) :
        Nat × List String × Nat × List (String × Nat) × Nat).1 ∧
    ((2, ["a"], 1, [("Object", 1), ("Number", 1)], 0) :
        Nat × List String × Nat × List (String × Nat) × Nat).2.1.toFinset =
      ((2, ["a"], 1, [("Object", 1), ("Number", 1)], 0) :
        Nat × List String × Nat × List (String × Nat) × Nat).2.1.toFinset ∧
    ((2, ["a"], 1, [("Object", 1), ("Number", 1)], 0) :
        Nat × List String × Nat × List (String × Nat) × Nat).2.2.1 =
      ((2, ["a"], 1, [("Object", 1), ("Number", 1)], 0) :
        Nat × List String × Nat × List (String × Nat) × Nat).2.2.1 ∧
    ((2, ["a"], 1, [("Object", 1), ("Number", 1)], 0) :
        Nat × List String × Nat × List (String × Nat) × Nat).2.2.2.1 =
      ((2, ["a"], 1, [("Object", 1), ("Number", 1)], 0) :
        Nat × List String × Nat × List (String × Nat) × Nat).2.2.2.1 ∧
    ((2, ["a"], 1, [("Object", 1), ("Number", 1)], 0) :
        Nat × List String × Nat × List (String × Nat) × Nat).2.2.2.2 =
      ((2, ["a"], 1, [("Object", 1), ("Number", 1)], 0) :
        Nat × List String × Nat × List (String × Nat) × Nat).2.2.2.2 :=
  c9_determinism_up_to_key_order idOrder revOrder [(.str "a", .int 1)]
    validOrder_idOrder validOrder_revOrder
    (2, ["a"], 1, [("Object", 1), ("Number", 1)], 0)
    (2, ["a"], 1, [("Object", 1), ("Number", 1)], 0) rfl rfl

/-- C10: every successful call of the pipeline has an Object root, so
nested_object_count is at least 1 and the histogram has an Object entry
with count at least 1, even for the empty dict. -/
theorem c10_root_object_invariant (ord : List String → List String)
    (entries : List (PyObj × PyObj))
    (r : Nat × List String × Nat × List (String × Nat) × Nat)
    (h : summarize_large_json ord entries = .ok r) :
    1 ≤ r.2.2.1 ∧ ∃ n, lookupC r.2.2.2.1 "Object" = some n ∧ 1 ≤ n := by
  unfold summarize_large_json at h
  cases hpd : pydict_to_value entries with
  | error e =>
      rw [hpd] at h
      exact absurd h (by simp)
  | ok json =>
      obtain ⟨m, rfl⟩ : ∃ m, json = .object m := by
        unfold pydict_to_value at hpd
        cases hl : pydictLoop [] entries with
        | ok mm =>
            rw [hl] at hpd
            injection hpd with hpd
            exact ⟨mm, hpd.symm⟩
        | error e =>
            rw [hl] at hpd
            exact absurd hpd (by simp)
      rw [hpd] at h
      injection h with h
      subst h
      obtain ⟨h1, h2, _, _, _⟩ := summarizeValue_char (.object m) 0 ⟨[], 0, 0⟩
      constructor
      · dsimp only
        rw [h2]
        simp only [tagTrace, List.count_cons_self]
        omega
      · refine ⟨("Object" :: tagTraceEntries m).count "Object", ?_, ?_⟩
        · dsimp only
          rw [h1]
          dsimp only
          rw [lookupC_incrMany]
          simp [tagTrace, List.count_cons_self, lookupC]
        · simp [List.count_cons_self]

/-- C10 witness: the empty dict input, whose result has
nested_object_count = 1 and histogram Object count 1. -/
theorem c10_root_object_invariant_witness :
    1 ≤ ((0, [], 1, [("Object", 1)], 0) :
          Nat × List String × Nat × List (String × Nat) × Nat).2.2.1 ∧
      ∃ n, lookupC ((0, [], 1, [("Object", 1)], 0) :
          Nat × List String × Nat × List (String × Nat) × Nat).2.2.2.1 "Object" =
            some n ∧ 1 ≤ n :=
  c10_root_object_invariant idOrder [] (0, [], 1, [("Object", 1)], 0) rfl
